import Mathlib

/-!
Shallow embedding of the OSPFS module (src/ospfsmod.c): the free-block
bitmap allocator, the three-tier block-index functions, the size-change
engine (add_block / remove_block / change_size), file read/write, the
directory store with create / link / unlink, and the conditional-symlink
interpreter.  Stateful C code is modelled by explicit state passing over a
`Disk` (bitmap + block contents) or a `DirFS` (directory entries + inode
table) record; machine integers are `Nat` with explicit mod-2^32 arithmetic
where the C code can wrap.  The while-loops of the C code are modelled with
a fuel parameter; every theorem supplies fuel strictly larger than the
number of iterations the loop performs, so the fuel-exhaustion branch is
never taken.
-/

namespace OSPFS

/-! ### Compile-time constants.

These come from the header ospfs.h, which is not part of src/; their values
are taken from the specification (B = 1024, ND = 10, NI = B/4 = 256,
DE = 128, MAXNAMELEN = 56) and the standard Linux errno numbers used by the
source. Only the facts that B = 1024, ND = 10, NI = 256 and that the ftype
codes are distinct matter for the theorems below. -/

def OSPFS_BLKSIZE : Nat := 1024
def OSPFS_BLKBITSIZE : Nat := OSPFS_BLKSIZE * 8
def OSPFS_NDIRECT : Nat := 10
def OSPFS_NINDIRECT : Nat := OSPFS_BLKSIZE / 4
def OSPFS_DIRENTRY_SIZE : Nat := 128
def OSPFS_MAXNAMELEN : Nat := 56
def OSPFS_FTYPE_REG : Nat := 0
def OSPFS_FTYPE_DIR : Nat := 1
def OSPFS_FTYPE_SYMLINK : Nat := 2

def ENOENT : Int := 2
def EIOcode : Int := 5
def EEXIST : Int := 17
def ENOSPC : Int := 28
def ENAMETOOLONG : Int := 36

/-- Point update of a function out of `Nat` (models an in-place store). -/
def upd {α : Type} (f : Nat → α) (i : Nat) (v : α) : Nat → α :=
  fun j => if j = i then v else f j

/-! ### Data model.

`Inode` is ospfs_inode_t restricted to the fields the block algorithms
touch.  `Disk` carries the superblock fields used by the allocator
(os_nblocks, os_firstinob), the free-block bitmap, and the block contents.
The source accesses a block's bytes both as an array of uint32 block
numbers (index blocks) and as raw chars (data); these two views are kept as
separate fields `blocks` (word-indexed) and `bytes` (byte-indexed), which
is sound for all states built in this file because no block is ever used
as both an index block and a data block. -/

structure Inode where
  oi_size : Nat
  oi_ftype : Nat
  oi_direct : List Nat
  oi_indirect : Nat
  oi_indirect2 : Nat
  deriving DecidableEq

structure Disk where
  os_nblocks : Nat
  os_firstinob : Nat
  bitmap : Nat → Bool
  blocks : Nat → Nat → Nat
  bytes : Nat → Nat → Nat

/-- ospfs_size2nblocks: blocks required to hold `size` bytes. -/
def ospfs_size2nblocks (size : Nat) : Nat :=
  (size + OSPFS_BLKSIZE - 1) / OSPFS_BLKSIZE

/-- indir2_index (src/ospfsmod.c): 0 if file block `b` lives under the
doubly-indirect block, -1 if not (and -2 past the maximum file size). -/
def indir2_index (b : Nat) : Int :=
  if b < OSPFS_NINDIRECT + OSPFS_NDIRECT then -1
  else if b < OSPFS_NINDIRECT * OSPFS_NINDIRECT + OSPFS_NINDIRECT + OSPFS_NDIRECT then 0
  else -2

/-- indir_index (src/ospfsmod.c): -1 for a direct block, 0 under the first
indirect block, else the slot of the relevant indirect block inside the
doubly-indirect block. -/
def indir_index (b : Nat) : Int :=
  if b < OSPFS_NDIRECT then -1
  else if b < OSPFS_NINDIRECT + OSPFS_NDIRECT then 0
  else if b < OSPFS_NINDIRECT * OSPFS_NINDIRECT + OSPFS_NINDIRECT + OSPFS_NDIRECT then
    ((b - (OSPFS_NINDIRECT + OSPFS_NDIRECT)) / OSPFS_NINDIRECT : Nat)
  else -2

/-- direct_index (src/ospfsmod.c): position of file block `b` inside its
containing table (direct array, indirect block, or second-level indirect
block). -/
def direct_index (b : Nat) : Int :=
  if b < OSPFS_NDIRECT then (b : Nat)
  else if b < OSPFS_NDIRECT + OSPFS_NINDIRECT then ((b - OSPFS_NDIRECT : Nat))
  else if b < OSPFS_NDIRECT + OSPFS_NINDIRECT + OSPFS_NINDIRECT * OSPFS_NINDIRECT then
    ((b - OSPFS_NDIRECT - OSPFS_NINDIRECT) % OSPFS_NINDIRECT : Nat)
  else -1

/-- ospfs_inode_blockno (src/ospfsmod.c): device block holding the
`offset`th byte of the file.  Returns 0 when `offset` is at or past the
file size or the inode is a symlink; otherwise resolves through the
direct / indirect / doubly-indirect tier exactly as the source does
(note the doubly-indirect branch is taken for every blockno
≥ ND + NI, with no upper bound, as in the source). -/
def ospfs_inode_blockno (d : Disk) (oi : Inode) (offset : Nat) : Nat :=
  let blockno := offset / OSPFS_BLKSIZE
  if offset ≥ oi.oi_size ∨ oi.oi_ftype = OSPFS_FTYPE_SYMLINK then 0
  else if blockno ≥ OSPFS_NDIRECT + OSPFS_NINDIRECT then
    let blockoff := blockno - (OSPFS_NDIRECT + OSPFS_NINDIRECT)
    d.blocks (d.blocks oi.oi_indirect2 (blockoff / OSPFS_NINDIRECT)) (blockoff % OSPFS_NINDIRECT)
  else if blockno ≥ OSPFS_NDIRECT then
    d.blocks oi.oi_indirect (blockno - OSPFS_NDIRECT)
  else
    oi.oi_direct.getD blockno 0

/-- Modelled from the spec (4.D `block_of`): the claimed three-tier mapping
for file block index `b`, written from the specification's words to be
compared with `ospfs_inode_blockno` (which is translated from the source). -/
def spec_block_of (d : Disk) (oi : Inode) (b : Nat) : Nat :=
  if b < OSPFS_NDIRECT then oi.oi_direct.getD b 0
  else if b < OSPFS_NDIRECT + OSPFS_NINDIRECT then
    d.blocks oi.oi_indirect (b - OSPFS_NDIRECT)
  else
    d.blocks (d.blocks oi.oi_indirect2 ((b - OSPFS_NDIRECT - OSPFS_NINDIRECT) / OSPFS_NINDIRECT))
      ((b - OSPFS_NDIRECT - OSPFS_NINDIRECT) % OSPFS_NINDIRECT)

/-! ### Free-block bitmap (allocate_block / free_block).

The freemap occupies consecutive blocks starting at OSPFS_FREEMAP_BLK; bit
`i` of freemap block `k` is modelled as `bitmap (k * OSPFS_BLKBITSIZE + i)`.
allocate_block scans from os_firstinob (not past the inode table) and keeps
a running freemap-block counter `fmIdx` that it advances only when the loop
variable equals OSPFS_BLKBITSIZE, after the bit test of that iteration,
exactly as the source does.  free_block addresses the bit of block
`blockno / OSPFS_BLKBITSIZE` at offset `blockno % OSPFS_BLKBITSIZE`. -/

def bitFlat (fmIdx bit : Nat) : Nat := fmIdx * OSPFS_BLKBITSIZE + bit

/-- The scan loop of allocate_block; returns the updated bitmap and the
allocated block number (0 when the scan finds no free bit). -/
def alloc_loop (nb : Nat) : (Nat → Bool) → Nat → Nat → Nat → (Nat → Bool) × Nat
  | bm, _, _, 0 => (bm, 0)
  | bm, idx, fmIdx, Nat.succ fuel =>
    if idx < nb then
      if bm (bitFlat fmIdx (idx % OSPFS_BLKBITSIZE)) then
        (upd bm (bitFlat fmIdx (idx % OSPFS_BLKBITSIZE)) false, idx)
      else
        alloc_loop nb bm (idx + 1)
          (if idx = OSPFS_BLKBITSIZE then fmIdx + 1 else fmIdx) fuel
    else (bm, 0)

/-- allocate_block (src/ospfsmod.c): scans the freemap from os_firstinob to
os_nblocks - 1, clears the first set bit and returns its index; returns 0
when the disk is full. -/
def allocate_block (d : Disk) : Disk × Nat :=
  let p := alloc_loop d.os_nblocks d.bitmap d.os_firstinob 0 d.os_nblocks
  ({ d with bitmap := p.1 }, p.2)

/-- free_block (src/ospfsmod.c): sets the freemap bit of `blockno`. -/
def free_block (d : Disk) (blockno : Nat) : Disk :=
  let i := bitFlat (blockno / OSPFS_BLKBITSIZE) (blockno % OSPFS_BLKBITSIZE)
  { d with bitmap := upd d.bitmap i true }

/-- Zero a whole block (both the word view and the byte view, as the
source's char-wise clearing loop does). -/
def zero_block (d : Disk) (b : Nat) : Disk :=
  { d with
    blocks := (fun b2 => if b2 = b then (fun _ => 0) else d.blocks b2),
    bytes := (fun b2 => if b2 = b then (fun _ => 0) else d.bytes b2) }

/-- Store block number `v` into word `w` of block `b` (an index-block
entry write through a uint32 pointer). -/
def write_entry_word (d : Disk) (b w v : Nat) : Disk :=
  { d with blocks := fun b2 => if b2 = b then upd (d.blocks b2) w v else d.blocks b2 }

/-! ### Size-change engine (add_block / remove_block / change_size).

add_block's source allocates between 1 and 3 blocks depending on the tier
transition of the new block index `n`; the source's for-loop over
`new_blocks ∈ {1,2,3}` allocations (with rollback of the earlier
allocations when one fails) is unrolled here.  Note two faithfully kept
quirks of the source: in the `n = 0` case the result of allocate_block is
stored into oi_direct[0] before it is tested against 0, and in the
`new_blocks = 2` case with no doubly-indirect block the source stores the
new indirect block's number into word 0 of the block addressed by the OLD
value of oi_indirect instead of assigning oi->oi_indirect. -/

/-- add_block (src/ospfsmod.c): add one data block to the file, plus any
index blocks the new block index requires. -/
def add_block (d : Disk) (oi : Inode) : Int × Disk × Inode :=
  let n := ospfs_size2nblocks oi.oi_size
  if n = 0 then
    let p := allocate_block d
    let oi1 := { oi with oi_direct := oi.oi_direct.set 0 p.2 }
    if p.2 = 0 then (-ENOSPC, p.1, oi1)
    else
      let d1 := zero_block p.1 p.2
      (0, d1, { oi1 with oi_size := oi1.oi_size + OSPFS_BLKSIZE })
  else
    let new_blocks : Nat :=
      if indir2_index n ≠ indir2_index (n - 1) then 3
      else if indir_index n ≠ indir_index (n - 1) then 2
      else 1
    let p0 := allocate_block d
    let a0 := p0.2
    if a0 = 0 then (-ENOSPC, p0.1, oi)
    else if new_blocks = 1 then
      let d1 := zero_block p0.1 a0
      let step : Disk × Inode :=
        if indir2_index n = 0 then
          (write_entry_word d1 (d1.blocks oi.oi_indirect2 (indir_index n).toNat)
            (direct_index n).toNat a0, oi)
        else if indir_index n ≠ -1 then
          (write_entry_word d1 oi.oi_indirect (direct_index n).toNat a0, oi)
        else
          (d1, { oi with oi_direct := oi.oi_direct.set (direct_index n).toNat a0 })
      (0, step.1, { step.2 with oi_size := step.2.oi_size + OSPFS_BLKSIZE })
    else
      let p1 := allocate_block p0.1
      let a1 := p1.2
      if a1 = 0 then (-ENOSPC, free_block p1.1 a0, oi)
      else if new_blocks = 2 then
        let d1 := zero_block (zero_block p1.1 a0) a1
        let d2 := write_entry_word d1 a1 0 a0
        let d3 :=
          if indir2_index n = 0 then
            write_entry_word d2 oi.oi_indirect2 (indir_index n).toNat a1
          else
            write_entry_word d2 oi.oi_indirect 0 a1
        (0, d3, { oi with oi_size := oi.oi_size + OSPFS_BLKSIZE })
      else
        let p2 := allocate_block p1.1
        let a2 := p2.2
        if a2 = 0 then (-ENOSPC, free_block (free_block p2.1 a1) a0, oi)
        else
          let d1 := zero_block (zero_block (zero_block p2.1 a0) a1) a2
          let d2 := write_entry_word (write_entry_word d1 a2 0 a1) a1 0 a0
          (0, d2, { oi with oi_indirect2 := a2, oi_size := oi.oi_size + OSPFS_BLKSIZE })

/-- remove_block (src/ospfsmod.c): free the file's last data block, and the
index blocks that the source's tier comparison selects.  The source frees
blocks but never zeroes the pointer slots that referenced them.  The final
size update is the source's two-step computation (round down to a multiple
of the block size, then subtract one more block when the result is a
nonzero multiple).  The source computes `n - 1` in uint32; change_size only
invokes remove_block with n ≥ 1, where `Nat` subtraction agrees. -/
def remove_block (d : Disk) (oi : Inode) : Int × Disk × Inode :=
  let n := ospfs_size2nblocks oi.oi_size
  let d1 :=
    if indir2_index n ≠ indir2_index (n - 1) then
      let a2 := oi.oi_indirect2
      let a1 := d.blocks a2 0
      let a0 := d.blocks a1 0
      free_block (free_block (free_block d a0) a1) a2
    else if indir_index n ≠ indir_index (n - 1) then
      if indir2_index n = 0 then
        let a1 := d.blocks oi.oi_indirect2 (indir_index (n - 1)).toNat
        let a0 := d.blocks a1 (direct_index (n - 1)).toNat
        free_block (free_block d a0) a1
      else
        let a1 := oi.oi_indirect
        let a0 := d.blocks a1 (direct_index (n - 1)).toNat
        free_block (free_block d a0) a1
    else
      if indir2_index n = 0 then
        let a1 := d.blocks oi.oi_indirect2 (indir_index (n - 1)).toNat
        let a0 := d.blocks a1 (direct_index (n - 1)).toNat
        free_block d a0
      else if indir_index n ≠ -1 then
        let a0 := d.blocks oi.oi_indirect (direct_index (n - 1)).toNat
        free_block d a0
      else
        free_block d (oi.oi_direct.getD (direct_index (n - 1)).toNat 0)
  let s1 := oi.oi_size - oi.oi_size % OSPFS_BLKSIZE
  let s2 := if s1 % OSPFS_BLKSIZE = 0 ∧ s1 ≠ 0 then s1 - OSPFS_BLKSIZE else s1
  (0, d1, { oi with oi_size := s2 })

/-- The grow while-loop of change_size: add blocks while the file holds
fewer blocks than `ns` needs, returning the add_block error as soon as one
fails.  Fuel exhaustion returns -EIOcode; all theorems supply ample fuel. -/
def grow_loop : Nat → Disk → Inode → Nat → Int × Disk × Inode
  | 0, d, oi, _ => (-EIOcode, d, oi)
  | Nat.succ fuel, d, oi, ns =>
    if ospfs_size2nblocks oi.oi_size < ospfs_size2nblocks ns then
      let r := add_block d oi
      if r.1 < 0 then r else grow_loop fuel r.2.1 r.2.2 ns
    else (0, d, oi)

/-- The shrink while-loop of change_size. -/
def shrink_loop : Nat → Disk → Inode → Nat → Int × Disk × Inode
  | 0, d, oi, _ => (-EIOcode, d, oi)
  | Nat.succ fuel, d, oi, ns =>
    if ospfs_size2nblocks oi.oi_size > ospfs_size2nblocks ns then
      let r := remove_block d oi
      if r.1 < 0 then r else shrink_loop fuel r.2.1 r.2.2 ns
    else (0, d, oi)

/-- change_size (src/ospfsmod.c): grow or shrink to `ns` one block at a
time, then set oi_size to exactly `ns`.  On an add_block failure the source
returns immediately, leaving the partially grown state behind. -/
def change_size (fuel : Nat) (d : Disk) (oi : Inode) (ns : Nat) : Int × Disk × Inode :=
  let g := grow_loop fuel d oi ns
  if g.1 < 0 then g
  else
    let s := shrink_loop fuel g.2.1 g.2.2 ns
    if s.1 < 0 then s
    else (0, s.2.1, { s.2.2 with oi_size := ns })

/-! ### File I/O (ospfs_read / ospfs_write).

Data copying to and from user space is modelled as lists of byte values;
the copy_to_user / copy_from_user fault paths (-EFAULT) are not modelled.
The read loop copies each chunk from byte 0 of the block (the source never
adds `*f_pos % OSPFS_BLKSIZE` to the block pointer); the write loop writes
the first chunk at `init_offset = *f_pos % OSPFS_BLKSIZE` and later chunks
at offset 0, with chunk length min(count - amount, OSPFS_BLKSIZE) in both
loops, exactly as the source computes them. -/

/-- The uint32 subtraction `a - b` of the C code (operands reduced
mod 2^32), used by ospfs_read's count clamp. -/
def u32_sub (a b : Nat) : Nat :=
  (a % 4294967296 + 4294967296 - b % 4294967296) % 4294967296

/-- Write `chunk` into the byte view of block `b` starting at offset
`off`. -/
def write_bytes_block (d : Disk) (b off : Nat) (chunk : List Nat) : Disk :=
  { d with bytes := (fun b2 => if b2 = b then
      (fun i => if off ≤ i ∧ i < off + chunk.length then chunk.getD (i - off) 0 else d.bytes b2 i)
      else d.bytes b2) }

/-- The copy loop of ospfs_read; arguments after the fixed ones are fuel,
amount, f_pos and the bytes copied so far.  Returns the error (if the loop
broke with retval < 0), the copied bytes and the final f_pos. -/
def read_loop (d : Disk) (oi : Inode) (count : Nat) :
    Nat → Nat → Nat → List Nat → Option Int × List Nat × Nat
  | 0, _, fpos, acc => (none, acc, fpos)
  | Nat.succ fuel, amount, fpos, acc =>
    if amount < count then
      let blockno := ospfs_inode_blockno d oi fpos
      if blockno = 0 then (some (-EIOcode), acc, fpos)
      else
        let n := if count - amount > OSPFS_BLKSIZE then OSPFS_BLKSIZE else count - amount
        let chunk := (List.range n).map (fun j => d.bytes blockno j)
        read_loop d oi count fuel (amount + n) (fpos + n) (acc ++ chunk)
    else (none, acc, fpos)

/-- ospfs_read (src/ospfsmod.c): clamp `count` with the uint32 expression
`count < size - pos ? count : size - pos`, then copy block by block.
Returns (return value, bytes delivered to the user buffer, final f_pos). -/
def ospfs_read (fuel : Nat) (d : Disk) (oi : Inode) (count0 fpos : Nat) :
    Int × List Nat × Nat :=
  let count := if count0 < u32_sub oi.oi_size fpos then count0 else u32_sub oi.oi_size fpos
  match read_loop d oi count fuel 0 fpos [] with
  | (some e, acc, f2) => (e, acc, f2)
  | (none, acc, f2) => ((acc.length : Int), acc, f2)

/-- The copy loop of ospfs_write; arguments after the fixed ones are fuel,
the disk, amount, f_pos and init_offset.  Returns the error (if any), the
disk, the final f_pos and the amount written. -/
def write_loop (oi : Inode) (buf : List Nat) (count : Nat) :
    Nat → Disk → Nat → Nat → Nat → Option Int × Disk × Nat × Nat
  | 0, d, amount, fpos, _ => (none, d, fpos, amount)
  | Nat.succ fuel, d, amount, fpos, off =>
    if amount < count then
      let blockno := ospfs_inode_blockno d oi fpos
      if blockno = 0 then (some (-EIOcode), d, fpos, amount)
      else
        let n := if count - amount > OSPFS_BLKSIZE then OSPFS_BLKSIZE else count - amount
        let chunk := (List.range n).map (fun j => buf.getD (amount + j) 0)
        write_loop oi buf count fuel (write_bytes_block d blockno off chunk)
          (amount + n) (fpos + n) 0
    else (none, d, fpos, amount)

/-- ospfs_write (src/ospfsmod.c): honour O_APPEND, compute init_offset,
grow the file through change_size when `count + f_pos ≥ size` (propagating
its error together with whatever state change_size left behind), then copy
block by block.  Returns (return value, disk, inode, final f_pos). -/
def ospfs_write (fuel : Nat) (d : Disk) (oi : Inode) (append : Bool)
    (buf : List Nat) (count fpos0 : Nat) : Int × Disk × Inode × Nat :=
  let fpos := if append then oi.oi_size else fpos0
  let init_off := fpos % OSPFS_BLKSIZE
  let resized : Int × Disk × Inode :=
    if count + fpos ≥ oi.oi_size then change_size fuel d oi (count + fpos)
    else (0, d, oi)
  if resized.1 < 0 then (resized.1, resized.2.1, resized.2.2, fpos)
  else
    match write_loop resized.2.2 buf count fuel resized.2.1 0 fpos init_off with
    | (some e, d2, f2, _) => (e, d2, resized.2.2, f2)
    | (none, d2, f2, amt) => ((amt : Int), d2, resized.2.2, f2)

/-! ### Directory store and namespace operations.

A directory file is a packed array of fixed-stride entries; it is modelled
as a `List OD` in slot order, together with the inode-table fields the
namespace operations touch (`nlink`, `ftype`, `mode`, indexed by inode
number).  Names are `List Char` (the C code compares strlen and the bytes,
i.e. list equality).  create_blank_direntry's directory growth through
change_size is modelled as appending one zeroed slot (newly allocated
directory blocks are zeroed by add_block); the out-of-space failure of
that growth (the source returns ERR_PTR(-ENOSPC)) is not modelled, and no
theorem below exercises a growth failure. -/

structure OD where
  od_ino : Nat
  od_name : List Char
  deriving DecidableEq

structure DirFS where
  entries : List OD
  nlink : Nat → Nat
  ftype : Nat → Nat
  mode : Nat → Nat
  ninodes : Nat

/-- find_direntry (src/ospfsmod.c): linear scan for a live entry
(od_ino > 0) whose name equals `nm`. -/
def find_direntry : List OD → List Char → Option OD
  | [], _ => none
  | od :: rest, nm =>
    if od.od_ino ≠ 0 ∧ od.od_name = nm then some od else find_direntry rest nm

/-- create_blank_direntry (src/ospfsmod.c): return the slot index of the
first blank entry (od_ino = 0), growing the directory by one zeroed slot
when no blank exists.  Returns the (possibly grown) entry list and the
slot index. -/
def create_blank_direntry : List OD → List OD × Nat
  | [] => ([⟨0, []⟩], 0)
  | od :: rest =>
    if od.od_ino = 0 then (od :: rest, 0)
    else
      let p := create_blank_direntry rest
      (od :: p.1, p.2 + 1)

/-- The unlink scan of ospfs_unlink: find the first live entry named `nm`,
zero its inode number, and report the inode number it held.  Returns none
when no entry matches. -/
def unlink_scan : List OD → List Char → Option (List OD × Nat)
  | [], _ => none
  | od :: rest, nm =>
    if od.od_ino ≠ 0 ∧ od.od_name = nm then some ({ od with od_ino := 0 } :: rest, od.od_ino)
    else (unlink_scan rest nm).map (fun p => (od :: p.1, p.2))

/-- ospfs_link (src/ospfsmod.c): reject a too-long or colliding name, then
write the source inode's number and the new name into a blank entry and
increment the source inode's link count. -/
def ospfs_link (srcIno : Nat) (d : DirFS) (nm : List Char) : Int × DirFS :=
  if nm.length > OSPFS_MAXNAMELEN then (-ENAMETOOLONG, d)
  else if (find_direntry d.entries nm).isSome then (-EEXIST, d)
  else
    let p := create_blank_direntry d.entries
    (0, { d with entries := p.1.set p.2 ⟨srcIno, nm⟩,
                 nlink := upd d.nlink srcIno (d.nlink srcIno + 1) })

/-- The free-inode scan of ospfs_create: from inode 2 upward, the first
inode with nlink = 0; none when the table (ninodes) is exhausted. -/
def find_free_ino (d : DirFS) : Nat → Nat → Option Nat
  | _, 0 => none
  | ino, Nat.succ fuel =>
    if ino ≥ d.ninodes then none
    else if d.nlink ino = 0 then some ino
    else find_free_ino d (ino + 1) fuel

/-- ospfs_create (src/ospfsmod.c), in the source's order of operations:
check -EEXIST; take a blank entry and write the name into it; scan for a
free inode (-ENOSPC when none, with the name already written); initialise
the inode (nlink++, mode, ftype); only then check -ENAMETOOLONG (with the
directory slot and the inode already mutated); finally write the name
again together with the inode number. -/
def ospfs_create (d : DirFS) (nm : List Char) (md : Nat) : Int × DirFS :=
  if (find_direntry d.entries nm).isSome then (-EEXIST, d)
  else
    let p := create_blank_direntry d.entries
    let d1 := { d with entries := p.1.set p.2 { (p.1.getD p.2 ⟨0, []⟩) with od_name := nm } }
    match find_free_ino d1 2 (d1.ninodes + 1) with
    | none => (-ENOSPC, d1)
    | some ino =>
      let d2 := { d1 with nlink := upd d1.nlink ino (d1.nlink ino + 1),
                          mode := upd d1.mode ino md,
                          ftype := upd d1.ftype ino OSPFS_FTYPE_REG }
      if nm.length > OSPFS_MAXNAMELEN then (-ENAMETOOLONG, d2)
      else (0, { d2 with entries := d2.entries.set p.2 ⟨ino, nm⟩ })

/-- ospfs_unlink (src/ospfsmod.c): find the entry named `nm`, set its
od_ino to 0 and decrement the target inode's nlink (the source reads the
inode from the dentry, which by VFS lookup is the entry's inode). -/
def ospfs_unlink (d : DirFS) (nm : List Char) : Int × DirFS :=
  match unlink_scan d.entries nm with
  | none => (-ENOENT, d)
  | some (l, ino) => (0, { d with entries := l, nlink := upd d.nlink ino (d.nlink ino - 1) })

/-! ### Conditional-symlink interpreter (ospfs_follow_link).

The stored link text is a NUL-terminated C string in the inode; it is
modelled as the `List Char` of its characters (no NUL), and reading the
buffer at an index past the text yields the NUL terminator (`List.getD`
with a NUL default).  The source compares the first five buffer bytes with
"root?"; on mismatch it returns the stored text.  For uid 0 it copies from
position 5 up to (excluding) the first ':'; otherwise it skips past the
first ':' and copies up to the terminating NUL. -/

def nulC : Char := Char.ofNat 0

/-- Buffer read of the link text at index `i` (NUL past the end). -/
def buffGet (text : List Char) (i : Nat) : Char := text.getD i nulC

/-- The prefix comparison loop of ospfs_follow_link, unrolled over the five
characters of "root?". -/
def hasRootTag (text : List Char) : Bool :=
  buffGet text 0 == 'r' && buffGet text 1 == 'o' && buffGet text 2 == 'o'
    && buffGet text 3 == 't' && buffGet text 4 == '?'

/-- The copy loop `while (*end != c)`: the characters before the first
occurrence of `c`.  The source would scan past the buffer when `c` does not
occur; the theorems' hypotheses guarantee it occurs. -/
def scanUntil (c : Char) : List Char → List Char
  | [] => []
  | x :: xs => if x = c then [] else x :: scanUntil c xs

/-- The skip loop `while (*start != c) start++; start++`: everything after
the first occurrence of `c`. -/
def dropThrough (c : Char) : List Char → List Char
  | [] => []
  | x :: xs => if x = c then xs else dropThrough c xs

/-- ospfs_follow_link (src/ospfsmod.c): resolve the link text for the
calling uid. -/
def ospfs_follow_link (text : List Char) (uid : Nat) : List Char :=
  if hasRootTag text then
    if uid = 0 then scanUntil ':' (text.drop 5)
    else scanUntil nulC (dropThrough ':' (text.drop 5))
  else text

/-! ### Concrete states used by the counterexample evaluations.

Layout of the small disk: 8 blocks, boot 0, superblock 1, freemap 2,
inode table starting at block 3 (os_firstinob = 3).  The bitmap marks the
listed blocks free (bit = true); all block contents start zeroed. -/

/-- Disk with exactly one free block (block 4). -/
def dOneFree : Disk := ⟨8, 3, (fun i => i == 4), (fun _ _ => 0), (fun _ _ => 0)⟩

/-- Disk with no free blocks. -/
def dNoFree : Disk := ⟨8, 3, (fun _ => false), (fun _ _ => 0), (fun _ _ => 0)⟩

/-- Disk whose bitmap marks block 3 (the first inode-table block) and
block 6 free. -/
def dTableBitFree : Disk := ⟨8, 3, (fun i => i == 3 || i == 6), (fun _ _ => 0), (fun _ _ => 0)⟩

/-- An empty regular file: size 0, all block pointers 0. -/
def oiEmpty : Inode := ⟨0, OSPFS_FTYPE_REG, List.replicate 10 0, 0, 0⟩

/-- A 10-byte regular file stored in data block 5. -/
def oiTen : Inode := ⟨10, OSPFS_FTYPE_REG, 5 :: List.replicate 9 0, 0, 0⟩

/-- A 5-byte regular file stored in data block 5. -/
def oiFive : Inode := ⟨5, OSPFS_FTYPE_REG, 5 :: List.replicate 9 0, 0, 0⟩

/-- C1.  On a disk with one free block, growing the empty file to 2048
bytes fails with -ENOSPC after the first added block, and change_size
returns with oi_size = 1024, oi_direct[0] = 4 and the bitmap bit of
block 4 cleared — none of the entry values (size 0, pointer 0, bit set)
is restored.  This contradicts the claimed all-or-nothing grow path (and
the function's own header comment demanding it). -/
theorem change_size_no_rollback_bug :
    (change_size 10 dOneFree oiEmpty 2048).1 = -ENOSPC ∧
    (change_size 10 dOneFree oiEmpty 2048).2.2.oi_size = 1024 ∧
    (change_size 10 dOneFree oiEmpty 2048).2.2.oi_direct.getD 0 0 = 4 ∧
    (change_size 10 dOneFree oiEmpty 2048).2.1.bitmap 4 = false ∧
    oiEmpty.oi_size = 0 ∧ oiEmpty.oi_direct.getD 0 0 = 0 ∧ dOneFree.bitmap 4 = true := by
  refine ⟨by decide, by decide, by decide, by decide, by decide, by decide, by decide⟩

/-- C2.  Growing the empty file to 1024 bytes (allocating block 4 into
oi_direct[0]) and then shrinking back to 0 restores the free-block bitmap
(bit 4 is set again) but leaves the stale pointer oi_direct[0] = 4 in the
inode: remove_block frees blocks without ever zeroing the slot that
pointed to them, so the round trip is not byte-for-byte. -/
theorem grow_shrink_stale_pointer_bug :
    (change_size 10 dOneFree oiEmpty 1024).1 = 0 ∧
    (change_size 10 (change_size 10 dOneFree oiEmpty 1024).2.1
      (change_size 10 dOneFree oiEmpty 1024).2.2 0).1 = 0 ∧
    (change_size 10 (change_size 10 dOneFree oiEmpty 1024).2.1
      (change_size 10 dOneFree oiEmpty 1024).2.2 0).2.1.bitmap 4 = true ∧
    (change_size 10 (change_size 10 dOneFree oiEmpty 1024).2.1
      (change_size 10 dOneFree oiEmpty 1024).2.2 0).2.2.oi_size = 0 ∧
    (change_size 10 (change_size 10 dOneFree oiEmpty 1024).2.1
      (change_size 10 dOneFree oiEmpty 1024).2.2 0).2.2.oi_direct.getD 0 0 = 4 ∧
    oiEmpty.oi_direct.getD 0 0 = 0 := by
  refine ⟨by decide, by decide, by decide, by decide, by decide, by decide⟩

/-- C5.  allocate_block starts its scan at os_firstinob, not past the
inode table: on a disk whose bitmap has the bit of block 3 (the first
inode-table block) set, it allocates and returns block 3, inside the inode
table, instead of block 6 ≥ first_inode_block + inode_table_len which the
claimed scan range would produce. -/
theorem allocate_block_scans_inode_table :
    (allocate_block dTableBitFree).2 = dTableBitFree.os_firstinob ∧
    (allocate_block dTableBitFree).2 = 3 ∧
    (allocate_block dTableBitFree).1.bitmap 3 = false ∧
    dTableBitFree.bitmap 6 = true := by
  refine ⟨by decide, by decide, by decide, by decide⟩

/-- C4.  Writing one byte 65 at pos = 5 into a 10-byte file stores it at
byte 5 of data block 5 (the tail position pos mod B), but the subsequent
read of one byte at pos = 5 copies from byte 0 of the block (the read loop
never adds pos mod B to the block pointer) and returns the byte 0 instead
of 65: write-then-read does not return the written buffer at an unaligned
position. -/
theorem write_read_unaligned_bug :
    (ospfs_write 10 dNoFree oiTen false [65] 1 5).1 = 1 ∧
    (ospfs_write 10 dNoFree oiTen false [65] 1 5).2.1.bytes 5 5 = 65 ∧
    (ospfs_read 10 (ospfs_write 10 dNoFree oiTen false [65] 1 5).2.1 oiTen 1 5).1 = 1 ∧
    (ospfs_read 10 (ospfs_write 10 dNoFree oiTen false [65] 1 5).2.1 oiTen 1 5).2.1 = [0] ∧
    ([0] : List Nat) ≠ [65] := by
  refine ⟨by decide, by decide, by decide, by decide, by decide⟩

/-- C6.  Reading 1 byte at pos = 10 from a 5-byte file: the clamp
`count < size - pos ? count : size - pos` is computed in uint32, so
size - pos wraps to 2^32 - 5 and count stays 1; the loop then asks for the
block of offset 10 ≥ size, gets 0, and the call returns -EIOcode having copied
no bytes — instead of copying min(count, max(0, size - pos)) = 0 bytes and
returning 0 as claimed. -/
theorem read_past_eof_eio_bug :
    (ospfs_read 10 dNoFree oiFive 1 10).1 = -EIOcode ∧
    (ospfs_read 10 dNoFree oiFive 1 10).2.1 = [] ∧
    u32_sub oiFive.oi_size 10 = 4294967291 ∧
    (-EIOcode : Int) ≠ 0 := by
  refine ⟨by decide, by decide, by decide, by decide⟩

/-- Directory with a single blank slot; inodes 0 and 1 are in use
(nlink 1), inodes 2 and 3 are free; 4 inodes total. -/
def dirBlank : DirFS := ⟨[⟨0, []⟩], (fun i => if i < 2 then 1 else 0), (fun _ => 0), (fun _ => 0), 4⟩

/-- A 57-character name, one longer than OSPFS_MAXNAMELEN. -/
def name57 : List Char := List.replicate 57 'a'

/-- C7.  ospfs_create with a too-long name returns -ENAMETOOLONG, but only
after it has already written the name into a directory slot and
incremented the free inode's nlink from 0 to 1 (the length check sits
after those mutations in the source), so the image is not unchanged on
this user error. -/
theorem create_nametoolong_mutates :
    (ospfs_create dirBlank name57 0).1 = -ENAMETOOLONG ∧
    (ospfs_create dirBlank name57 0).2.nlink 2 = 1 ∧
    dirBlank.nlink 2 = 0 ∧
    (ospfs_create dirBlank name57 0).2.entries.getD 0 ⟨0, []⟩ = ⟨0, name57⟩ ∧
    dirBlank.entries.getD 0 ⟨0, []⟩ = ⟨0, []⟩ := by
  refine ⟨by decide, by decide, by decide, by decide, by decide⟩

/-- C10.  When the requested size needs exactly as many blocks as the
current size, change_size performs no loop iteration: it returns 0 and the
final state is the unchanged disk (bitmap, all block contents) together
with the inode whose only modified field is oi_size := new_size. -/
theorem change_size_same_blockcount (d : Disk) (oi : Inode) (ns fuel : Nat)
    (h : ospfs_size2nblocks ns = ospfs_size2nblocks oi.oi_size) :
    change_size (fuel + 1) d oi ns = (0, d, { oi with oi_size := ns }) := by
  simp [change_size, grow_loop, shrink_loop, h]

/-- Witness for C10: the 5-byte file needs one block, as does size 100, and
change_size only rewrites oi_size. -/
theorem change_size_same_blockcount_witness :
    ospfs_size2nblocks 100 = ospfs_size2nblocks oiFive.oi_size ∧
    change_size 5 dNoFree oiFive 100 = (0, dNoFree, { oiFive with oi_size := 100 }) :=
  ⟨by decide, change_size_same_blockcount dNoFree oiFive 100 4 (by decide)⟩

/-- C3.  For a regular file and any byte offset below the size,
ospfs_inode_blockno returns exactly the three-tier mapping the
specification describes (spec_block_of, written from the spec's words),
and on a consistent inode — every file block index below the block count
maps to a nonzero device block — the result is nonzero. -/
theorem inode_blockno_matches_spec (d : Disk) (oi : Inode) (o : Nat)
    (h1 : o < oi.oi_size) (h2 : oi.oi_ftype = OSPFS_FTYPE_REG)
    (hwf : ∀ b, b < ospfs_size2nblocks oi.oi_size → spec_block_of d oi b ≠ 0) :
    ospfs_inode_blockno d oi o = spec_block_of d oi (o / OSPFS_BLKSIZE) ∧
    ospfs_inode_blockno d oi o ≠ 0 := by
  have hb : o / OSPFS_BLKSIZE < ospfs_size2nblocks oi.oi_size := by
    simp only [ospfs_size2nblocks, OSPFS_BLKSIZE]
    omega
  have hguard : ¬(o ≥ oi.oi_size ∨ oi.oi_ftype = OSPFS_FTYPE_SYMLINK) := by
    rintro (hge | hsym)
    · omega
    · rw [h2] at hsym
      exact absurd hsym (by decide)
  have heq : ospfs_inode_blockno d oi o = spec_block_of d oi (o / OSPFS_BLKSIZE) := by
    rw [ospfs_inode_blockno, spec_block_of, if_neg hguard, Nat.sub_sub]
    simp only [OSPFS_NDIRECT, OSPFS_NINDIRECT, OSPFS_BLKSIZE]
    split_ifs <;> omega
  exact ⟨heq, heq ▸ hwf _ hb⟩

/-- Witness for C3 at offset 0 of the consistent 5-byte file in block 5. -/
theorem inode_blockno_matches_spec_witness :
    (0 < oiFive.oi_size ∧ oiFive.oi_ftype = OSPFS_FTYPE_REG ∧
      (∀ b, b < ospfs_size2nblocks oiFive.oi_size → spec_block_of dNoFree oiFive b ≠ 0)) ∧
    (ospfs_inode_blockno dNoFree oiFive 0 = spec_block_of dNoFree oiFive (0 / OSPFS_BLKSIZE) ∧
      ospfs_inode_blockno dNoFree oiFive 0 ≠ 0) :=
  ⟨⟨by decide, by decide, by decide⟩,
    inode_blockno_matches_spec dNoFree oiFive 0 (by decide) (by decide) (by decide)⟩

/-- The five characters of the conditional-link marker. -/
def rootTag : List Char := ['r', 'o', 'o', 't', '?']

theorem scanUntil_append (c : Char) (A B : List Char) (h : c ∉ A) :
    scanUntil c (A ++ c :: B) = A := by
  induction A with
  | nil => simp [scanUntil]
  | cons a A ih =>
    have hne : a ≠ c := fun e => h (e ▸ List.mem_cons_self a A)
    have h2 : c ∉ A := fun m => h (List.mem_cons_of_mem a m)
    simp [scanUntil, hne, ih h2]

theorem scanUntil_of_not_mem (c : Char) (B : List Char) (h : c ∉ B) :
    scanUntil c B = B := by
  induction B with
  | nil => rfl
  | cons b B ih =>
    have hne : b ≠ c := fun e => h (e ▸ List.mem_cons_self b B)
    have h2 : c ∉ B := fun m => h (List.mem_cons_of_mem b m)
    simp [scanUntil, hne, ih h2]

theorem dropThrough_append (c : Char) (A B : List Char) (h : c ∉ A) :
    dropThrough c (A ++ c :: B) = B := by
  induction A with
  | nil => simp [dropThrough]
  | cons a A ih =>
    have hne : a ≠ c := fun e => h (e ▸ List.mem_cons_self a A)
    have h2 : c ∉ A := fun m => h (List.mem_cons_of_mem a m)
    simp [dropThrough, hne, ih h2]

/-- If the prefix comparison succeeds on the NUL-padded buffer, the text
really does begin with the five marker characters. -/
theorem hasRootTag_take (text : List Char) (h : hasRootTag text = true) :
    text.take 5 = rootTag := by
  match text with
  | [] => exact absurd h (by decide)
  | [a] =>
    simp only [hasRootTag, buffGet, Bool.and_eq_true, beq_iff_eq] at h
    have hx : nulC = 'o' := h.1.1.1.2
    exact absurd hx (by decide)
  | [a, b] =>
    simp only [hasRootTag, buffGet, Bool.and_eq_true, beq_iff_eq] at h
    have hx : nulC = 'o' := h.1.1.2
    exact absurd hx (by decide)
  | [a, b, c] =>
    simp only [hasRootTag, buffGet, Bool.and_eq_true, beq_iff_eq] at h
    have hx : nulC = 't' := h.1.2
    exact absurd hx (by decide)
  | [a, b, c, e] =>
    simp only [hasRootTag, buffGet, Bool.and_eq_true, beq_iff_eq] at h
    have hx : nulC = '?' := h.2
    exact absurd hx (by decide)
  | a :: b :: c :: e :: f :: rest =>
    simp only [hasRootTag, buffGet, Bool.and_eq_true, beq_iff_eq] at h
    obtain ⟨⟨⟨⟨h0, h1⟩, h2⟩, h3⟩, h4⟩ := h
    simp only [List.getD_cons_zero, List.getD_cons_succ] at h0 h1 h2 h3 h4
    subst h0; subst h1; subst h2; subst h3; subst h4
    rfl

/-- C8.  For a stored text of the form root?A:B (A containing no colon, B
a C string so containing no NUL), follow_link yields exactly A for uid 0
and exactly B for any nonzero uid; for a stored text that does not begin
with root?, follow_link yields the text unchanged for every uid. -/
theorem follow_link_conditional (A B text : List Char) (uid uid2 : Nat)
    (hA : ':' ∉ A) (hB : nulC ∉ B) (huid : uid ≠ 0)
    (htext : text.take 5 ≠ rootTag) :
    ospfs_follow_link (rootTag ++ A ++ ':' :: B) 0 = A ∧
    ospfs_follow_link (rootTag ++ A ++ ':' :: B) uid = B ∧
    ospfs_follow_link text uid2 = text := by
  have htag : hasRootTag (rootTag ++ A ++ ':' :: B) = true := rfl
  have hdrop : (rootTag ++ A ++ ':' :: B).drop 5 = A ++ ':' :: B := rfl
  have hmiss : hasRootTag text = false := by
    cases hcase : hasRootTag text
    · rfl
    · exact absurd (hasRootTag_take text hcase) htext
  refine ⟨?_, ?_, ?_⟩
  · rw [ospfs_follow_link, if_pos htag, if_pos rfl, hdrop]
    exact scanUntil_append ':' A B hA
  · rw [ospfs_follow_link, if_pos htag, if_neg huid, hdrop,
      dropThrough_append ':' A B hA]
    exact scanUntil_of_not_mem nulC B hB
  · rw [ospfs_follow_link, hmiss]
    simp

/-- Witness for C8: the spec's own example, `root?/etc/a:/home/u/a`,
resolved for uid 0 and uid 1000, plus a non-conditional text `xy`. -/
theorem follow_link_conditional_witness :
    ((':' ∉ (['/', 'e', 't', 'c', '/', 'a'] : List Char)) ∧
      (nulC ∉ (['/', 'h', 'o', 'm', 'e', '/', 'u', '/', 'a'] : List Char)) ∧
      (1000 : Nat) ≠ 0 ∧ (['x', 'y'] : List Char).take 5 ≠ rootTag) ∧
    (ospfs_follow_link (rootTag ++ ['/', 'e', 't', 'c', '/', 'a'] ++
        ':' :: ['/', 'h', 'o', 'm', 'e', '/', 'u', '/', 'a']) 0 = ['/', 'e', 't', 'c', '/', 'a'] ∧
      ospfs_follow_link (rootTag ++ ['/', 'e', 't', 'c', '/', 'a'] ++
        ':' :: ['/', 'h', 'o', 'm', 'e', '/', 'u', '/', 'a']) 1000
        = ['/', 'h', 'o', 'm', 'e', '/', 'u', '/', 'a'] ∧
      ospfs_follow_link ['x', 'y'] 7 = ['x', 'y']) :=
  ⟨⟨by decide, by decide, by decide, by decide⟩,
    follow_link_conditional ['/', 'e', 't', 'c', '/', 'a']
      ['/', 'h', 'o', 'm', 'e', '/', 'u', '/', 'a'] ['x', 'y'] 1000 7
      (by decide) (by decide) (by decide) (by decide)⟩

/-- Number of live entries named `nm` in a directory. -/
def count_matches : List OD → List Char → Nat
  | [], _ => 0
  | od :: rest, nm =>
    (if od.od_ino ≠ 0 ∧ od.od_name = nm then 1 else 0) + count_matches rest nm

/-- Writing a live entry named `nm` into the blank slot chosen by
create_blank_direntry makes it the entry find_direntry returns for `nm`,
provided no live entry of that name existed. -/
theorem find_set_blank_hit (l : List OD) (nm : List Char) (e : OD)
    (hnone : find_direntry l nm = none) (hino : e.od_ino ≠ 0) (hname : e.od_name = nm) :
    find_direntry ((create_blank_direntry l).1.set (create_blank_direntry l).2 e) nm
      = some e := by
  induction l with
  | nil => simp [create_blank_direntry, find_direntry, hino, hname]
  | cons od rest ih =>
    by_cases hc : od.od_ino ≠ 0 ∧ od.od_name = nm
    · rw [find_direntry, if_pos hc] at hnone
      exact absurd hnone (by simp)
    · rw [find_direntry, if_neg hc] at hnone
      by_cases h0 : od.od_ino = 0
      · simp [create_blank_direntry, h0, find_direntry, hino, hname]
      · simp only [create_blank_direntry, if_neg h0, List.set_cons_succ, find_direntry,
          if_neg hc]
        exact ih hnone

/-- Writing an entry that does not match `nm` into the blank slot leaves
find_direntry's answer for `nm` unchanged. -/
theorem find_set_blank_miss (l : List OD) (nm : List Char) (e : OD)
    (he : ¬(e.od_ino ≠ 0 ∧ e.od_name = nm)) :
    find_direntry ((create_blank_direntry l).1.set (create_blank_direntry l).2 e) nm
      = find_direntry l nm := by
  induction l with
  | nil => simp [create_blank_direntry, find_direntry, he]
  | cons od rest ih =>
    by_cases h0 : od.od_ino = 0
    · have hc : ¬(od.od_ino ≠ 0 ∧ od.od_name = nm) := fun hx => hx.1 h0
      simp [create_blank_direntry, h0, find_direntry, he, hc]
    · by_cases hc : od.od_ino ≠ 0 ∧ od.od_name = nm
      · simp [create_blank_direntry, h0, find_direntry, hc]
      · simp only [create_blank_direntry, if_neg h0, List.set_cons_succ, find_direntry,
          if_neg hc]
        exact ih

/-- Writing an entry that does not match `nm` into the blank slot also
preserves the number of live `nm` entries. -/
theorem count_set_blank (l : List OD) (nm : List Char) (e : OD)
    (he : ¬(e.od_ino ≠ 0 ∧ e.od_name = nm)) :
    count_matches ((create_blank_direntry l).1.set (create_blank_direntry l).2 e) nm
      = count_matches l nm := by
  induction l with
  | nil => simp [create_blank_direntry, count_matches, he]
  | cons od rest ih =>
    by_cases h0 : od.od_ino = 0
    · have hc : ¬(od.od_ino ≠ 0 ∧ od.od_name = nm) := fun hx => hx.1 h0
      simp [create_blank_direntry, h0, count_matches, he, hc]
    · simp only [create_blank_direntry, if_neg h0, List.set_cons_succ, count_matches]
      rw [ih]

/-- A directory with no live `nm` entry yields none from find_direntry. -/
theorem count_zero_find_none (l : List OD) (nm : List Char)
    (h : count_matches l nm = 0) : find_direntry l nm = none := by
  induction l with
  | nil => rfl
  | cons od rest ih =>
    rw [count_matches] at h
    by_cases hc : od.od_ino ≠ 0 ∧ od.od_name = nm
    · rw [if_pos hc] at h
      omega
    · rw [if_neg hc] at h
      rw [find_direntry, if_neg hc]
      exact ih (by omega)

/-- When find_direntry finds an entry, the unlink scan zeroes that entry
and reports its inode number. -/
theorem unlink_of_find (l : List OD) (nm : List Char) (od : OD)
    (h : find_direntry l nm = some od) :
    ∃ l2, unlink_scan l nm = some (l2, od.od_ino) := by
  induction l with
  | nil => exact absurd h (by simp [find_direntry])
  | cons x rest ih =>
    by_cases hc : x.od_ino ≠ 0 ∧ x.od_name = nm
    · rw [find_direntry, if_pos hc] at h
      obtain rfl : x = od := by injection h
      exact ⟨{ x with od_ino := 0 } :: rest, by rw [unlink_scan, if_pos hc]⟩
    · rw [find_direntry, if_neg hc] at h
      obtain ⟨l2, h2⟩ := ih h
      exact ⟨x :: l2, by rw [unlink_scan, if_neg hc, h2]; rfl⟩

/-- If exactly one live entry is named `nm`, the list left by the unlink
scan has no live `nm` entry. -/
theorem unlink_find_none (l : List OD) (nm : List Char) (l2 : List OD) (j : Nat)
    (hone : count_matches l nm = 1) (h : unlink_scan l nm = some (l2, j)) :
    find_direntry l2 nm = none := by
  induction l generalizing l2 with
  | nil => exact absurd h (by simp [unlink_scan])
  | cons x rest ih =>
    rw [count_matches] at hone
    by_cases hc : x.od_ino ≠ 0 ∧ x.od_name = nm
    · rw [unlink_scan, if_pos hc] at h
      rw [if_pos hc] at hone
      obtain rfl : ({ x with od_ino := 0 } : OD) :: rest = l2 := by
        injection h with h'
        exact congrArg Prod.fst h'
      have hz : ¬(({ x with od_ino := 0 } : OD).od_ino ≠ 0 ∧
          ({ x with od_ino := 0 } : OD).od_name = nm) := by simp
      rw [find_direntry, if_neg hz]
      exact count_zero_find_none rest nm (by omega)
    · rw [unlink_scan, if_neg hc] at h
      rw [if_neg hc] at hone
      cases h2 : unlink_scan rest nm with
      | none => rw [h2] at h; exact Option.noConfusion h
      | some p =>
        obtain ⟨l3, j3⟩ := p
        rw [h2] at h
        injection h with h'
        injection h' with e1 e2
        subst e1
        subst e2
        rw [find_direntry, if_neg hc]
        exact ih l3 (by omega) h2
  -- j is unused in the induction; it is fixed by h in each branch

/-- Zeroing the first live `nm` entry does not change find_direntry's
answer for a different name `nm2`. -/
theorem unlink_find_other (l : List OD) (nm nm2 : List Char) (l2 : List OD) (j : Nat)
    (hne : nm ≠ nm2) (h : unlink_scan l nm = some (l2, j)) :
    find_direntry l2 nm2 = find_direntry l nm2 := by
  induction l generalizing l2 with
  | nil => exact absurd h (by simp [unlink_scan])
  | cons x rest ih =>
    by_cases hc : x.od_ino ≠ 0 ∧ x.od_name = nm
    · rw [unlink_scan, if_pos hc] at h
      obtain rfl : ({ x with od_ino := 0 } : OD) :: rest = l2 := by
        injection h with h'
        exact congrArg Prod.fst h'
      have hx2 : ¬(x.od_ino ≠ 0 ∧ x.od_name = nm2) := fun hx => hne (hc.2 ▸ hx.2)
      have hz : ¬(({ x with od_ino := 0 } : OD).od_ino ≠ 0 ∧
          ({ x with od_ino := 0 } : OD).od_name = nm2) := by simp
      rw [find_direntry, if_neg hz, find_direntry, if_neg hx2]
    · rw [unlink_scan, if_neg hc] at h
      cases h2 : unlink_scan rest nm with
      | none => rw [h2] at h; exact Option.noConfusion h
      | some p =>
        obtain ⟨l3, j3⟩ := p
        rw [h2] at h
        injection h with h'
        injection h' with e1 e2
        subst e1
        subst e2
        rw [find_direntry, find_direntry]
        by_cases hx2 : x.od_ino ≠ 0 ∧ x.od_name = nm2
        · rw [if_pos hx2, if_pos hx2]
        · rw [if_neg hx2, if_neg hx2]
          exact ih l3 h2

/-- C9.  In any directory whose sole live entry named `f` carries inode
`i` with nlink 1 (a freshly created file) and which has no entry named
`g`, ospfs_link(i, dir, g) succeeds, makes `g` an entry carrying inode `i`
and raises nlink to 2; the subsequent ospfs_unlink of `f` succeeds, zeroes
`f`'s entry (find no longer returns it), leaves `g` resolving to the same
inode `i`, and nlink drops back to 1. -/
theorem link_unlink_hardlink (d : DirFS) (f g : List Char) (i : Nat) (odf : OD)
    (hf : find_direntry d.entries f = some odf)
    (hfi : odf.od_ino = i)
    (hone : count_matches d.entries f = 1)
    (hnl : d.nlink i = 1)
    (hg : find_direntry d.entries g = none)
    (hglen : g.length ≤ OSPFS_MAXNAMELEN)
    (hfg : f ≠ g) (hi : i ≠ 0) :
    (ospfs_link i d g).1 = 0 ∧
    find_direntry (ospfs_link i d g).2.entries g = some ⟨i, g⟩ ∧
    (ospfs_link i d g).2.nlink i = 2 ∧
    (ospfs_unlink (ospfs_link i d g).2 f).1 = 0 ∧
    find_direntry (ospfs_unlink (ospfs_link i d g).2 f).2.entries f = none ∧
    find_direntry (ospfs_unlink (ospfs_link i d g).2 f).2.entries g = some ⟨i, g⟩ ∧
    (ospfs_unlink (ospfs_link i d g).2 f).2.nlink i = 1 := by
  have hlen : ¬(g.length > OSPFS_MAXNAMELEN) := by omega
  have hL : ospfs_link i d g =
      (0, { d with
        entries := (create_blank_direntry d.entries).1.set
          (create_blank_direntry d.entries).2 ⟨i, g⟩,
        nlink := upd d.nlink i (d.nlink i + 1) }) := by
    rw [ospfs_link, if_neg hlen, hg]
    rfl
  have hmissf : ¬((⟨i, g⟩ : OD).od_ino ≠ 0 ∧ (⟨i, g⟩ : OD).od_name = f) :=
    fun hx => hfg (hx.2.symm)
  have hfind_g1 : find_direntry (ospfs_link i d g).2.entries g = some ⟨i, g⟩ := by
    rw [hL]
    exact find_set_blank_hit d.entries g ⟨i, g⟩ hg hi rfl
  have hfind_f1 : find_direntry (ospfs_link i d g).2.entries f = some odf := by
    rw [hL]
    exact (find_set_blank_miss d.entries f ⟨i, g⟩ hmissf).trans hf
  have hcount_f1 : count_matches (ospfs_link i d g).2.entries f = 1 := by
    rw [hL]
    exact (count_set_blank d.entries f ⟨i, g⟩ hmissf).trans hone
  obtain ⟨l2, hu⟩ := unlink_of_find _ f odf hfind_f1
  rw [hfi] at hu
  have hU : ospfs_unlink (ospfs_link i d g).2 f =
      (0, { (ospfs_link i d g).2 with
              entries := l2,
              nlink := upd (ospfs_link i d g).2.nlink i
                ((ospfs_link i d g).2.nlink i - 1) }) := by
    rw [ospfs_unlink, hu]
  have hnl1 : (ospfs_link i d g).2.nlink i = 2 := by
    rw [hL]
    simp [upd, hnl]
  refine ⟨by rw [hL], hfind_g1, hnl1, by rw [hU], ?_, ?_, ?_⟩
  · rw [hU]
    exact unlink_find_none (ospfs_link i d g).2.entries f l2 i hcount_f1 hu
  · rw [hU]
    exact (unlink_find_other (ospfs_link i d g).2.entries f g l2 i hfg hu).trans hfind_g1
  · rw [hU]
    simp [upd, hnl1]

/-- Witness for C9: a directory holding only the entry f ↦ inode 3
(nlink 1); link to g then unlink f. -/
theorem link_unlink_hardlink_witness :
    (find_direntry ([⟨3, ['f']⟩] : List OD) ['f'] = some ⟨3, ['f']⟩ ∧
      count_matches ([⟨3, ['f']⟩] : List OD) ['f'] = 1) ∧
    ((ospfs_link 3 ⟨[⟨3, ['f']⟩], (fun i => if i = 3 then 1 else 0), (fun _ => 0),
        (fun _ => 0), 4⟩ ['g']).1 = 0 ∧
      find_direntry (ospfs_link 3 ⟨[⟨3, ['f']⟩], (fun i => if i = 3 then 1 else 0),
        (fun _ => 0), (fun _ => 0), 4⟩ ['g']).2.entries ['g'] = some ⟨3, ['g']⟩ ∧
      (ospfs_link 3 ⟨[⟨3, ['f']⟩], (fun i => if i = 3 then 1 else 0), (fun _ => 0),
        (fun _ => 0), 4⟩ ['g']).2.nlink 3 = 2 ∧
      (ospfs_unlink (ospfs_link 3 ⟨[⟨3, ['f']⟩], (fun i => if i = 3 then 1 else 0),
        (fun _ => 0), (fun _ => 0), 4⟩ ['g']).2 ['f']).1 = 0 ∧
      find_direntry (ospfs_unlink (ospfs_link 3 ⟨[⟨3, ['f']⟩],
        (fun i => if i = 3 then 1 else 0), (fun _ => 0), (fun _ => 0), 4⟩ ['g']).2
        ['f']).2.entries ['f'] = none ∧
      find_direntry (ospfs_unlink (ospfs_link 3 ⟨[⟨3, ['f']⟩],
        (fun i => if i = 3 then 1 else 0), (fun _ => 0), (fun _ => 0), 4⟩ ['g']).2
        ['f']).2.entries ['g'] = some ⟨3, ['g']⟩ ∧
      (ospfs_unlink (ospfs_link 3 ⟨[⟨3, ['f']⟩], (fun i => if i = 3 then 1 else 0),
        (fun _ => 0), (fun _ => 0), 4⟩ ['g']).2 ['f']).2.nlink 3 = 1) :=
  ⟨⟨by decide, by decide⟩,
    link_unlink_hardlink ⟨[⟨3, ['f']⟩], (fun i => if i = 3 then 1 else 0), (fun _ => 0),
      (fun _ => 0), 4⟩ ['f'] ['g'] 3 ⟨3, ['f']⟩ (by decide) (by decide) (by decide) rfl
      (by decide) (by decide) (by decide) (by decide)⟩

end OSPFS
